import Mathlib

/-!
Verification of the message sentiment-scoring and aggregation pipeline of
`streamlit_app.py` (imessage-nlp-streamlit).

The pipeline's core, embedded here from the source:
  * `add_scores` (lines 137-146): per-row scoring — substitutes `""` for a
    missing (`pd.isna`) text, calls the external sentiment analyzer, and
    attaches the four score components to the row;
  * the batch pass `message.apply(add_scores, axis=1)` (line 148), modelled
    as `annotate`;
  * the extremum selection (lines 170-190): filter by `is_from_me == 1`
    (resp. `== 0`), then `idxmax` / `idxmin` on the `compound` column
    followed by `iloc`; pandas `idxmax`/`idxmin` return the FIRST index
    attaining the extremum, and raise `ValueError` on an empty series —
    modelled by `Option`, with `none` standing for that error;
  * the per-partner aggregation `groupby('id').mean()` (line 197),
    modelled as `aggregateByPartner`.

Floating-point score values are modelled as rationals.  The NLTK VADER
analyzer is an external collaborator (not part of this repository): it is
embedded as an opaque parameter `analyzer : String → ScoreVector`, and the
properties the spec asserts about the model's own output appear as
hypotheses on that parameter.
-/

/-- The four sentiment components produced by the analyzer
(`neg`, `neu`, `pos`, `compound` keys of `polarity_scores`). -/
structure ScoreVector where
  neg : ℚ
  neu : ℚ
  pos : ℚ
  compound : ℚ
deriving DecidableEq, Repr

/-- One row of the `message` table after the SQL load: `text` (nullable,
`none` models SQL NULL / `pd.isna`), the `is_from_me` flag (an SQLite
integer), the partner identifier `id` from the `handle` join, and the
human-readable `date` string.  Only these four columns are selected. -/
structure Record where
  text : Option String
  is_from_me : Int
  partnerId : String
  timestamp : String
deriving DecidableEq, Repr

/-- A row after `add_scores`: the original columns plus the four score
columns assigned on lines 142-145. -/
structure ScoredRecord where
  base : Record
  scores : ScoreVector
deriving DecidableEq, Repr

/-- Lines 138-141 of `add_scores`: `raw_text = ""` unless the row's text is
present (`not pd.isna(df.text)`), in which case `raw_text = df.text`; the
analyzer is then applied to `raw_text`. -/
def score (analyzer : String → ScoreVector) (text : Option String) : ScoreVector :=
  let raw_text := match text with
    | none => ""
    | some t => t
  analyzer raw_text

/-- `add_scores` (lines 137-146): score the row's text and attach the four
components, leaving the original columns untouched. -/
def add_scores (analyzer : String → ScoreVector) (r : Record) : ScoredRecord :=
  { base := r, scores := score analyzer r.text }

/-- Line 148: `scored_message = message.apply(add_scores, axis=1)` — the
row-wise batch pass over the whole table. -/
def annotate (analyzer : String → ScoreVector) (rs : List Record) : List ScoredRecord :=
  rs.map (add_scores analyzer)

/-- The fixed neutral vector the spec assigns to empty text:
`{neg:0, neu:1, pos:0, compound:0}`. -/
def neutralVector : ScoreVector := { neg := 0, neu := 1, pos := 0, compound := 0 }

/-- The bounds the spec states for a score vector: the three non-compound
components lie in `[0,1]` and sum to `1` within tolerance `1e-6`, and
`compound` lies in `[-1,1]`. -/
def ValidScoreVector (v : ScoreVector) : Prop :=
  0 ≤ v.neg ∧ v.neg ≤ 1 ∧
  0 ≤ v.neu ∧ v.neu ≤ 1 ∧
  0 ≤ v.pos ∧ v.pos ≤ 1 ∧
  |v.neg + v.neu + v.pos - 1| ≤ 1 / 1000000 ∧
  -1 ≤ v.compound ∧ v.compound ≤ 1

instance : DecidablePred ValidScoreVector := fun v => by
  unfold ValidScoreVector; infer_instance

/-- Lines 170 and 180: `scored_message.loc[scored_message.is_from_me == flag]`
— the subset of rows whose `is_from_me` equals the given flag, in table
order. -/
def filterByFlag (flag : Int) (rs : List ScoredRecord) : List ScoredRecord :=
  rs.filter (fun r => r.base.is_from_me = flag)

/-- The running-best fold behind pandas `idxmax`: the current best row is
replaced only when a strictly greater `compound` appears, so the first
occurrence of the maximum wins. -/
def firstArgmaxAux (best : ScoredRecord) : List ScoredRecord → ScoredRecord
  | [] => best
  | r :: rs =>
    if best.scores.compound < r.scores.compound then firstArgmaxAux r rs
    else firstArgmaxAux best rs

/-- `series.compound.idxmax()` composed with `iloc` (lines 172, 182): the
first row attaining the maximal `compound`; `none` models the `ValueError`
pandas raises on an empty series. -/
def firstArgmax : List ScoredRecord → Option ScoredRecord
  | [] => none
  | r :: rs => some (firstArgmaxAux r rs)

/-- The running-best fold behind pandas `idxmin` (first occurrence of the
minimum wins). -/
def firstArgminAux (best : ScoredRecord) : List ScoredRecord → ScoredRecord
  | [] => best
  | r :: rs =>
    if r.scores.compound < best.scores.compound then firstArgminAux r rs
    else firstArgminAux best rs

/-- `series.compound.idxmin()` composed with `iloc` (lines 173, 184):
the first row attaining the minimal `compound`; `none` models the
`ValueError` pandas raises on an empty series. -/
def firstArgmin : List ScoredRecord → Option ScoredRecord
  | [] => none
  | r :: rs => some (firstArgminAux r rs)

/-- The pair of extreme rows the app displays for one sender direction. -/
structure Extremes where
  mostPositive : ScoredRecord
  mostNegative : ScoredRecord
deriving DecidableEq, Repr

/-- Lines 170-190, one sender direction: filter by the `is_from_me` flag,
then pick the `idxmax` and `idxmin` rows of the `compound` column.  `none`
models the `EmptyInput` error condition (`ValueError` from `idxmax` on an
empty filtered subset). -/
def selectExtremes (rs : List ScoredRecord) (flag : Int) : Option Extremes :=
  let ms := filterByFlag flag rs
  match firstArgmax ms, firstArgmin ms with
  | some p, some n => some { mostPositive := p, mostNegative := n }
  | _, _ => none

/-- The `compound` values of the rows of one partner's group: line 197
groups the `[['id', 'compound']]` projection by `id`. -/
def groupCompounds (rs : List ScoredRecord) (pid : String) : List ℚ :=
  (rs.filter (fun r => r.base.partnerId = pid)).map (fun r => r.scores.compound)

/-- Line 197: `scored_message[['id', 'compound']].groupby('id').mean()` —
the mapping from each partner id occurring in the input to the unweighted
arithmetic mean of its group's `compound` values; ids with no rows are
absent from the mapping (`none`). -/
def aggregateByPartner (rs : List ScoredRecord) (pid : String) : Option ℚ :=
  let cs := groupCompounds rs pid
  if cs.length = 0 then none else some (cs.sum / cs.length)

/-- C1: a record whose text is missing (`pd.isna`) or empty is scored by
applying the analyzer to `""`; given the neutral default the spec states
for the external model on empty text, `score` returns exactly
`{neg:0, neu:1, pos:0, compound:0}`, and it is a total function (no error
path exists in `add_scores` for missing text). -/
theorem score_missing_or_empty_neutral
    (analyzer : String → ScoreVector)
    (hmodel : analyzer "" = neutralVector)
    (text : Option String) (htext : text = none ∨ text = some "") :
    score analyzer text = neutralVector := by
  rcases htext with h | h <;> subst h <;> simpa [score] using hmodel

theorem score_missing_or_empty_neutral_witness :
    ((fun _ => neutralVector) : String → ScoreVector) "" = neutralVector ∧
    score (fun _ => neutralVector) none = neutralVector ∧
    score (fun _ => neutralVector) (some "") = neutralVector :=
  ⟨rfl,
   score_missing_or_empty_neutral (fun _ => neutralVector) rfl none (Or.inl rfl),
   score_missing_or_empty_neutral (fun _ => neutralVector) rfl (some "") (Or.inr rfl)⟩

/-- C3: `annotate` returns one output row per input row, in the same
positions: the row at index `i` of the output is exactly `add_scores`
applied to the row at index `i` of the input, so nothing is dropped,
duplicated or merged. -/
theorem annotate_length_and_pointwise
    (analyzer : String → ScoreVector) (rs : List Record) :
    (annotate analyzer rs).length = rs.length ∧
    ∀ i : ℕ, (annotate analyzer rs)[i]? = (rs[i]?).map (add_scores analyzer) := by
  refine ⟨List.length_map _ _, fun i => ?_⟩
  simp [annotate]

/-- C6: the non-score fields of the `i`-th output row of `annotate` are
exactly the `i`-th input record — `add_scores` only attaches the four score
columns and leaves `text`, `is_from_me`, `partnerId` and `timestamp`
unchanged. -/
theorem annotate_preserves_record_fields
    (analyzer : String → ScoreVector) (rs : List Record) (i : ℕ) :
    ((annotate analyzer rs)[i]?).map ScoredRecord.base = rs[i]? := by
  rcases h : rs[i]? with _ | r <;> simp [annotate, h, add_scores]

/-- C2: when the subset of records matching the sender flag is empty,
`selectExtremes` returns `none` — the model of the `EmptyInput` error
condition (`idxmax` raising `ValueError` on an empty series). -/
theorem selectExtremes_empty_subset_fails
    (rs : List ScoredRecord) (flag : Int)
    (h : filterByFlag flag rs = []) :
    selectExtremes rs flag = none := by
  simp [selectExtremes, h, firstArgmax, firstArgmin]

theorem selectExtremes_empty_subset_fails_witness :
    filterByFlag 1 [] = [] ∧ selectExtremes [] 1 = none :=
  ⟨rfl, selectExtremes_empty_subset_fails [] 1 rfl⟩

/-- C8: `add_scores` threads the analyzer's output into the record without
modification, so whenever the external model meets its contract — the three
non-compound components in `[0,1]` summing to `1` within `1e-6`, and
`compound` in `[-1,1]` — every vector `score` returns meets it too. -/
theorem score_valid_of_analyzer_valid
    (analyzer : String → ScoreVector)
    (hmodel : ∀ s : String, ValidScoreVector (analyzer s))
    (text : Option String) :
    ValidScoreVector (score analyzer text) := by
  cases text <;> exact hmodel _

theorem score_valid_of_analyzer_valid_witness :
    (∀ s : String, ValidScoreVector ((fun _ => neutralVector) s)) ∧
    ValidScoreVector (score (fun _ => neutralVector) (some "hello")) :=
  ⟨fun _ => by unfold ValidScoreVector neutralVector; norm_num,
   score_valid_of_analyzer_valid (fun _ => neutralVector)
     (fun _ => by unfold ValidScoreVector neutralVector; norm_num) (some "hello")⟩

/-- C10: the filters on lines 170 and 180 test exact equality of
`is_from_me` with `1` and with `0`; a record whose flag is neither `0` nor
`1` belongs to neither filtered subset, so the two subsets need not
partition the input. -/
theorem flag_not_binary_excluded_from_both
    (rs : List ScoredRecord) (r : ScoredRecord)
    (h0 : r.base.is_from_me ≠ 0) (h1 : r.base.is_from_me ≠ 1) :
    r ∉ filterByFlag 1 rs ∧ r ∉ filterByFlag 0 rs := by
  constructor <;> intro hmem <;>
    simp only [filterByFlag, List.mem_filter, decide_eq_true_eq] at hmem
  · exact h1 hmem.2
  · exact h0 hmem.2

theorem flag_not_binary_excluded_from_both_witness :
    let r : ScoredRecord :=
      { base := { text := some "group chat", is_from_me := 2,
                  partnerId := "A", timestamp := "t" },
        scores := neutralVector }
    (2 : Int) ≠ 0 ∧ (2 : Int) ≠ 1 ∧ (r ∉ filterByFlag 1 [r] ∧ r ∉ filterByFlag 0 [r]) ∧
    (filterByFlag 1 [r]).length + (filterByFlag 0 [r]).length ≠ ([r] : List ScoredRecord).length := by
  intro r
  refine ⟨by decide, by decide, ?_, by decide⟩
  exact flag_not_binary_excluded_from_both [r] r (by decide) (by decide)

/-- C7: `aggregateByPartner` is order-independent — permuting the input
sequence of scored records leaves the partner-to-mean mapping unchanged. -/
theorem aggregateByPartner_perm_invariant
    (rs rs' : List ScoredRecord) (h : rs.Perm rs') :
    aggregateByPartner rs = aggregateByPartner rs' := by
  funext pid
  have hperm : (groupCompounds rs pid).Perm (groupCompounds rs' pid) :=
    (h.filter _).map _
  simp only [aggregateByPartner, groupCompounds] at *
  rw [hperm.length_eq, hperm.sum_eq]

/-- `r` is the first record of `l` attaining the maximal `compound` value:
everything before it scores strictly lower and everything after it scores
no higher. -/
def FirstMax (l : List ScoredRecord) (r : ScoredRecord) : Prop :=
  ∃ l₁ l₂, l = l₁ ++ r :: l₂ ∧
    (∀ x ∈ l₁, x.scores.compound < r.scores.compound) ∧
    (∀ x ∈ l₂, x.scores.compound ≤ r.scores.compound)

/-- `r` is the first record of `l` attaining the minimal `compound` value. -/
def FirstMin (l : List ScoredRecord) (r : ScoredRecord) : Prop :=
  ∃ l₁ l₂, l = l₁ ++ r :: l₂ ∧
    (∀ x ∈ l₁, r.scores.compound < x.scores.compound) ∧
    (∀ x ∈ l₂, r.scores.compound ≤ x.scores.compound)

/-- Invariant of the `idxmax` fold: the result is the running best itself
(when nothing beats it) or the first element of the remaining list that
strictly beats everything before it and is never strictly beaten after. -/
theorem firstArgmaxAux_spec (l : List ScoredRecord) (best : ScoredRecord) :
    (firstArgmaxAux best l = best ∧
      ∀ x ∈ l, x.scores.compound ≤ best.scores.compound) ∨
    (∃ l₁ l₂, l = l₁ ++ firstArgmaxAux best l :: l₂ ∧
      best.scores.compound < (firstArgmaxAux best l).scores.compound ∧
      (∀ x ∈ l₁, x.scores.compound < (firstArgmaxAux best l).scores.compound) ∧
      (∀ x ∈ l₂, x.scores.compound ≤ (firstArgmaxAux best l).scores.compound)) := by
  induction l generalizing best with
  | nil => exact Or.inl ⟨rfl, by simp⟩
  | cons r rs ih =>
    by_cases h : best.scores.compound < r.scores.compound
    · simp only [firstArgmaxAux, if_pos h]
      rcases ih r with ⟨heq, hle⟩ | ⟨l₁, l₂, heq, hlt, hl₁, hl₂⟩
      · refine Or.inr ⟨[], rs, ?_, ?_, by simp, ?_⟩
        · simp [heq]
        · rw [heq]; exact h
        · intro x hx; rw [heq]; exact hle x hx
      · refine Or.inr ⟨r :: l₁, l₂, ?_, lt_trans h hlt, ?_, hl₂⟩
        · exact congrArg (List.cons r) heq
        · intro x hx
          rcases List.mem_cons.mp hx with hx | hx
          · subst hx; exact hlt
          · exact hl₁ x hx
    · simp only [firstArgmaxAux, if_neg h]
      rcases ih best with ⟨heq, hle⟩ | ⟨l₁, l₂, heq, hlt, hl₁, hl₂⟩
      · refine Or.inl ⟨heq, ?_⟩
        intro x hx
        rcases List.mem_cons.mp hx with hx | hx
        · subst hx; exact le_of_not_lt h
        · exact hle x hx
      · refine Or.inr ⟨r :: l₁, l₂, ?_, hlt, ?_, hl₂⟩
        · exact congrArg (List.cons r) heq
        · intro x hx
          rcases List.mem_cons.mp hx with hx | hx
          · subst hx; exact lt_of_le_of_lt (le_of_not_lt h) hlt
          · exact hl₁ x hx

/-- Invariant of the `idxmin` fold, dual to `firstArgmaxAux_spec`. -/
theorem firstArgminAux_spec (l : List ScoredRecord) (best : ScoredRecord) :
    (firstArgminAux best l = best ∧
      ∀ x ∈ l, best.scores.compound ≤ x.scores.compound) ∨
    (∃ l₁ l₂, l = l₁ ++ firstArgminAux best l :: l₂ ∧
      (firstArgminAux best l).scores.compound < best.scores.compound ∧
      (∀ x ∈ l₁, (firstArgminAux best l).scores.compound < x.scores.compound) ∧
      (∀ x ∈ l₂, (firstArgminAux best l).scores.compound ≤ x.scores.compound)) := by
  induction l generalizing best with
  | nil => exact Or.inl ⟨rfl, by simp⟩
  | cons r rs ih =>
    by_cases h : r.scores.compound < best.scores.compound
    · simp only [firstArgminAux, if_pos h]
      rcases ih r with ⟨heq, hle⟩ | ⟨l₁, l₂, heq, hlt, hl₁, hl₂⟩
      · refine Or.inr ⟨[], rs, ?_, ?_, by simp, ?_⟩
        · simp [heq]
        · rw [heq]; exact h
        · intro x hx; rw [heq]; exact hle x hx
      · refine Or.inr ⟨r :: l₁, l₂, ?_, lt_trans hlt h, ?_, hl₂⟩
        · exact congrArg (List.cons r) heq
        · intro x hx
          rcases List.mem_cons.mp hx with hx | hx
          · subst hx; exact hlt
          · exact hl₁ x hx
    · simp only [firstArgminAux, if_neg h]
      rcases ih best with ⟨heq, hle⟩ | ⟨l₁, l₂, heq, hlt, hl₁, hl₂⟩
      · refine Or.inl ⟨heq, ?_⟩
        intro x hx
        rcases List.mem_cons.mp hx with hx | hx
        · subst hx; exact le_of_not_lt h
        · exact hle x hx
      · refine Or.inr ⟨r :: l₁, l₂, ?_, hlt, ?_, hl₂⟩
        · exact congrArg (List.cons r) heq
        · intro x hx
          rcases List.mem_cons.mp hx with hx | hx
          · subst hx; exact lt_of_lt_of_le hlt (le_of_not_lt h)
          · exact hl₁ x hx

/-- `firstArgmax` picks the first occurrence of the maximum. -/
theorem firstArgmax_firstMax (l : List ScoredRecord) (m : ScoredRecord)
    (h : firstArgmax l = some m) : FirstMax l m := by
  cases l with
  | nil => exact absurd h (by simp [firstArgmax])
  | cons r rs =>
    have hm : firstArgmaxAux r rs = m := by
      simpa [firstArgmax] using h
    rcases firstArgmaxAux_spec rs r with ⟨heq, hle⟩ | ⟨l₁, l₂, heq, hlt, hl₁, hl₂⟩
    · refine ⟨[], rs, ?_, by simp, ?_⟩
      · rw [← hm, heq]; rfl
      · intro x hx; rw [← hm, heq]; exact hle x hx
    · rw [hm] at heq hlt hl₁ hl₂
      refine ⟨r :: l₁, l₂, by simp [heq], ?_, hl₂⟩
      intro x hx
      rcases List.mem_cons.mp hx with hx | hx
      · subst hx; exact hlt
      · exact hl₁ x hx

/-- `firstArgmin` picks the first occurrence of the minimum. -/
theorem firstArgmin_firstMin (l : List ScoredRecord) (m : ScoredRecord)
    (h : firstArgmin l = some m) : FirstMin l m := by
  cases l with
  | nil => exact absurd h (by simp [firstArgmin])
  | cons r rs =>
    have hm : firstArgminAux r rs = m := by
      simpa [firstArgmin] using h
    rcases firstArgminAux_spec rs r with ⟨heq, hle⟩ | ⟨l₁, l₂, heq, hlt, hl₁, hl₂⟩
    · refine ⟨[], rs, ?_, by simp, ?_⟩
      · rw [← hm, heq]; rfl
      · intro x hx; rw [← hm, heq]; exact hle x hx
    · rw [hm] at heq hlt hl₁ hl₂
      refine ⟨r :: l₁, l₂, by simp [heq], ?_, hl₂⟩
      intro x hx
      rcases List.mem_cons.mp hx with hx | hx
      · subst hx; exact hlt
      · exact hl₁ x hx

/-- C4: whenever `selectExtremes` succeeds, its `mostPositive` is the FIRST
record of the flag-filtered subset (which keeps input order) attaining the
maximal compound score, and its `mostNegative` the first attaining the
minimal one — in particular, among tied extremes the earliest in input
order is returned. -/
theorem selectExtremes_first_occurrence
    (rs : List ScoredRecord) (flag : Int) (e : Extremes)
    (h : selectExtremes rs flag = some e) :
    FirstMax (filterByFlag flag rs) e.mostPositive ∧
    FirstMin (filterByFlag flag rs) e.mostNegative := by
  dsimp only [selectExtremes] at h
  rcases hmax : firstArgmax (filterByFlag flag rs) with _ | p <;>
    rcases hmin : firstArgmin (filterByFlag flag rs) with _ | n <;>
      rw [hmax, hmin] at h <;> simp only [Option.some.injEq] at h
  · exact absurd h (by simp)
  · exact absurd h (by simp)
  · exact absurd h (by simp)
  · subst h
    exact ⟨firstArgmax_firstMax _ _ hmax, firstArgmin_firstMin _ _ hmin⟩

/-- A concrete scored row for evaluating the pipeline on fixed inputs. -/
def exRecord (t pid : String) (c : ℚ) (flag : Int) : ScoredRecord :=
  { base := { text := some t, is_from_me := flag, partnerId := pid, timestamp := t },
    scores := { neg := 0, neu := 1, pos := 0, compound := c } }

/-- A fixed input with a tied maximum (rows `b` and `c`) and a tied minimum
(rows `d` and `e`) among the `is_from_me = 1` rows. -/
def exTieList : List ScoredRecord :=
  [exRecord "a" "P" 1 1, exRecord "b" "P" 3 1, exRecord "c" "P" 3 1,
   exRecord "d" "P" 0 1, exRecord "e" "P" 0 1, exRecord "f" "P" 9 0]

theorem selectExtremes_first_occurrence_witness :
    selectExtremes exTieList 1 =
      some { mostPositive := exRecord "b" "P" 3 1,
             mostNegative := exRecord "d" "P" 0 1 } ∧
    FirstMax (filterByFlag 1 exTieList) (exRecord "b" "P" 3 1) ∧
    FirstMin (filterByFlag 1 exTieList) (exRecord "d" "P" 0 1) := by
  have h : selectExtremes exTieList 1 =
      some { mostPositive := exRecord "b" "P" 3 1,
             mostNegative := exRecord "d" "P" 0 1 } := by decide
  exact ⟨h, selectExtremes_first_occurrence exTieList 1 _ h⟩

/-- Unfolding equation for `aggregateByPartner`. -/
theorem aggregateByPartner_eq (rs : List ScoredRecord) (pid : String) :
    aggregateByPartner rs pid =
      if (groupCompounds rs pid).length = 0 then none
      else some ((groupCompounds rs pid).sum / ((groupCompounds rs pid).length : ℚ)) :=
  rfl

/-- C5: the partner mapping is defined exactly at the partner ids occurring
in the input (so each distinct id carries exactly one entry), its value at
a defined id is the unweighted arithmetic mean of that id's group of
compound scores, a record belongs to the group of its own partner id and to
no other, and the empty input yields the everywhere-undefined (empty)
mapping rather than an error. -/
theorem aggregateByPartner_groups_and_mean (rs : List ScoredRecord) (pid : String) :
    ((aggregateByPartner rs pid).isSome ↔
      pid ∈ rs.map (fun r => r.base.partnerId)) ∧
    (∀ q, aggregateByPartner rs pid = some q →
      q * ((groupCompounds rs pid).length : ℚ) = (groupCompounds rs pid).sum) ∧
    (∀ r ∈ rs, ∀ pid2 : String,
      (r ∈ rs.filter (fun x => x.base.partnerId = pid2) ↔
        pid2 = r.base.partnerId)) ∧
    aggregateByPartner [] pid = none := by
  have hlen : (groupCompounds rs pid).length =
      (rs.filter (fun r => r.base.partnerId = pid)).length := by
    simp [groupCompounds]
  refine ⟨?_, ?_, ?_, rfl⟩
  · constructor
    · intro hsome
      by_cases h0 : (groupCompounds rs pid).length = 0
      · rw [aggregateByPartner_eq, if_pos h0] at hsome
        cases hsome
      · rw [hlen] at h0
        rcases List.exists_mem_of_ne_nil _
            (List.length_pos.mp (Nat.pos_of_ne_zero h0)) with ⟨x, hx⟩
        have hx2 := List.mem_filter.mp hx
        exact List.mem_map.mpr ⟨x, hx2.1, of_decide_eq_true hx2.2⟩
    · intro hmem
      rcases List.mem_map.mp hmem with ⟨x, hx, hpid⟩
      have hxf : x ∈ rs.filter (fun r => r.base.partnerId = pid) :=
        List.mem_filter.mpr ⟨hx, decide_eq_true hpid⟩
      have h0 : (groupCompounds rs pid).length ≠ 0 := by
        rw [hlen]
        exact (List.length_pos.mpr (List.ne_nil_of_mem hxf)).ne'
      rw [aggregateByPartner_eq, if_neg h0]
      rfl
  · intro q hq
    by_cases h0 : (groupCompounds rs pid).length = 0
    · rw [aggregateByPartner_eq, if_pos h0] at hq
      cases hq
    · rw [aggregateByPartner_eq, if_neg h0] at hq
      rw [← Option.some.inj hq]
      exact div_mul_cancel₀ _ (Nat.cast_ne_zero.mpr h0)
  · intro r hr pid2
    simp only [List.mem_filter, hr, true_and, decide_eq_true_eq]
    exact eq_comm

/-- A fixed input with two partners: partner A holds compounds 1 and 0
(mean 1/2), partner B holds compound -1. -/
def exPartnerList : List ScoredRecord :=
  [exRecord "x" "A" 1 1, exRecord "y" "A" 0 1, exRecord "z" "B" (-1) 0]

theorem aggregateByPartner_groups_and_mean_witness :
    (aggregateByPartner exPartnerList "A").isSome ∧
    aggregateByPartner exPartnerList "A" = some (1 / 2) ∧
    (1 / 2 : ℚ) * ((groupCompounds exPartnerList "A").length : ℚ) =
      (groupCompounds exPartnerList "A").sum ∧
    exRecord "x" "A" 1 1 ∈
      exPartnerList.filter (fun x => x.base.partnerId = "A") ∧
    aggregateByPartner [] "A" = none := by
  have hA : aggregateByPartner exPartnerList "A" = some (1 / 2) := by
    have hg : groupCompounds exPartnerList "A" = [(1 : ℚ), 0] := by decide
    rw [aggregateByPartner_eq, hg]
    norm_num
  refine ⟨?_, hA, ?_, ?_, (aggregateByPartner_groups_and_mean [] "A").2.2.2⟩
  · exact ((aggregateByPartner_groups_and_mean exPartnerList "A").1).mpr (by decide)
  · exact (aggregateByPartner_groups_and_mean exPartnerList "A").2.1 (1 / 2) hA
  · exact ((aggregateByPartner_groups_and_mean exPartnerList "A").2.2.1
      (exRecord "x" "A" 1 1) (by decide) "A").mpr (by decide)

theorem aggregateByPartner_perm_invariant_witness :
    ([exRecord "x" "A" 1 1, exRecord "z" "B" (-1) 0]).Perm
      ([exRecord "z" "B" (-1) 0, exRecord "x" "A" 1 1]) ∧
    aggregateByPartner [exRecord "x" "A" 1 1, exRecord "z" "B" (-1) 0] =
      aggregateByPartner [exRecord "z" "B" (-1) 0, exRecord "x" "A" 1 1] := by
  have h : ([exRecord "x" "A" 1 1, exRecord "z" "B" (-1) 0]).Perm
      ([exRecord "z" "B" (-1) 0, exRecord "x" "A" 1 1]) :=
    List.Perm.swap _ _ []
  exact ⟨h, aggregateByPartner_perm_invariant _ _ h⟩
